import Mathlib

/-!
Shallow embedding of the `inipp` single-header INI parser (`inipp.hh`).

Strings are modelled by Lean `String` (a list of characters); the two
`std::unordered_map` members of `inipp::inifile` are modelled as functions
`String → Option _` (lookup is all the code ever does with them, apart from
`operator[]` insertion, which is modelled explicitly).  The parsing
constructor `inifile::inifile(std::ifstream&)` reads the stream line by line
with `std::getline`; the embedding takes the document as the list of those
lines.  C++ exceptions become `Except` results.
-/

namespace Inipp

/-! ### Text utilities (`inipp::private_`) -/

/-- The default whitespace set of `private_::trim`: space, tab, newline,
carriage return, form feed, vertical tab. -/
def whitespaceDefault : String := " \t\n\r\x0c\x0b"

/-- Models `private_::lstrip`: erase the longest leading run of characters
drawn from `cs` (via `find_first_not_of` / `erase(0, startpos)`). -/
def lstrip (s : String) (cs : String) : String :=
  ⟨s.data.dropWhile (fun ch => cs.data.contains ch)⟩

/-- Models `private_::rstrip`: erase the longest trailing run of characters
drawn from `cs` (via `find_last_not_of` / `erase(endpos+1)`). -/
def rstrip (s : String) (cs : String) : String :=
  ⟨(s.data.reverse.dropWhile (fun ch => cs.data.contains ch)).reverse⟩

/-- Models `private_::trim` with the default whitespace argument:
`rstrip(lstrip(str, ws), ws)`. -/
def trim (s : String) : String :=
  rstrip (lstrip s whitespaceDefault) whitespaceDefault

/-- Models `private_::strip_comment(s, mark)`: truncate `s` at the first
occurrence of any character of `mark` (`find_first_of` / `erase(pos)`). -/
def strip_comment1 (s : String) (mark : String) : String :=
  ⟨s.data.takeWhile (fun ch => !mark.data.contains ch)⟩

/-- Models the one-argument `private_::strip_comment`:
`strip_comment(strip_comment(s, "#"), ";")`. -/
def strip_comment (s : String) : String :=
  strip_comment1 (strip_comment1 s "#") ";"

/-- Models `private_::split(line, "=", key, value)` as used by the parser:
`none` when the separator is absent, otherwise the part before the first
`=` (`substr(0, eqpos)`) and the part after it (`substr(eqpos+1, ...)`). -/
def splitEq (s : String) : Option (String × String) :=
  if s.data.contains '=' then
    some (⟨s.data.takeWhile (fun ch => ch ≠ '=')⟩,
          ⟨(s.data.dropWhile (fun ch => ch ≠ '=')).drop 1⟩)
  else none

/-! ### Errors -/

/-- The syntax errors thrown by the parsing constructor, carrying the
offending (already trimmed and comment-stripped) line. -/
inductive SyntaxErr where
  | missingBracket (line : String)
  | invalidLine (line : String)
deriving DecidableEq, Repr

/-- The lookup errors of the query API.  `unknownEntry2 a b` models
`unknown_entry_error(a, b)` whose constructor parameters are, in order,
`key` and `section`: `a` fills the key parameter (reported as the unknown
entry) and `b` fills the section parameter (reported as the containing
section).  `unknownEntry1 k` models the one-argument constructor. -/
inductive IniError where
  | unknownEntry1 (key : String)
  | unknownEntry2 (key : String) (sec : String)
  | unknownSection (sec : String)
deriving DecidableEq, Repr

/-- The name an unknown-entry error reports as the unknown entry: the first
constructor argument (the `key` parameter of the C++ constructor, spliced
into the message directly after the words "Unknown entry"). -/
def IniError.reportedEntry : IniError → Option String
  | .unknownEntry1 k => some k
  | .unknownEntry2 k _ => some k
  | .unknownSection _ => none

/-- The name an unknown-entry error reports as the containing section: the
second constructor argument (the `section` parameter of the C++
constructor, spliced into the message after the words "in section"). -/
def IniError.reportedSection : IniError → Option String
  | .unknownEntry1 _ => none
  | .unknownEntry2 _ s => some s
  | .unknownSection _ => none

/-! ### The store -/

/-- Models the data of `inipp::inifile`: `sections_` (name → key/value map)
and `defaultsection_` (key → value).  The `std::unordered_map`s are
modelled as partial functions. -/
structure inifile where
  sections_ : String → Option (String → Option String)
  defaultsection_ : String → Option String

/-- The store an `inifile` holds before any line has been processed. -/
def emptyIni : inifile :=
  ⟨fun _ => none, fun _ => none⟩

/-- Update of one key of a key/value map, modelling
`map[key] = value` insertion or overwrite. -/
def updKV (m : String → Option String) (k v : String) : String → Option String :=
  fun x => if x = k then some v else m x

/-! ### The parsing constructor -/

/-- The classification the constructor loop applies to one raw line, after
trimming and comment stripping. -/
inductive LineKind where
  | empty
  | header (name : String)
  | entry (key : String) (val : String)
  | badHeader (line : String)
  | badEntry (line : String)
deriving DecidableEq, Repr

/-- Classification of one raw line, following the body of the constructor
loop: trim, strip comments, skip empty lines, treat a leading `[` as a
section header (requiring a closing `]` and trimming the bracket content),
otherwise split at the first `=` into trimmed key and value. -/
def classify (raw : String) : LineKind :=
  let line := strip_comment (trim raw)
  if line.data.isEmpty then .empty
  else if line.data.head? = some '[' then
    if line.data.getLast? = some ']' then
      .header (trim ⟨(line.data.drop 1).dropLast⟩)
    else .badHeader line
  else
    match splitEq line with
    | some (k, v) => .entry (trim k) (trim v)
    | none => .badEntry line

/-- The constructor's loop state: the store built so far, and the target of
`cursec` (`none` for `&defaultsection_`, `some n` for `&sections_[n]`). -/
structure PState where
  ini : inifile
  cur : Option String

/-- Models `sections_[name]` on the header path: `operator[]` inserts an
empty map when the name is absent and leaves an existing map alone. -/
def ensureSec (f : inifile) (name : String) : inifile :=
  match f.sections_ name with
  | some _ => f
  | none =>
    { f with sections_ :=
        fun x => if x = name then some (fun _ => none) else f.sections_ x }

/-- Models `(*cursec)[key] = value`: update the map `cursec` points at. -/
def setCur (f : inifile) (cur : Option String) (k v : String) : inifile :=
  match cur with
  | none => { f with defaultsection_ := updKV f.defaultsection_ k v }
  | some name =>
    { f with sections_ :=
        fun x =>
          if x = name then
            some (updKV ((f.sections_ name).getD (fun _ => none)) k v)
          else f.sections_ x }

/-- One iteration of the constructor loop on one raw line. -/
def processLine (st : PState) (raw : String) : Except SyntaxErr PState :=
  match classify raw with
  | .empty => .ok st
  | .header n => .ok ⟨ensureSec st.ini n, some n⟩
  | .entry k v => .ok ⟨setCur st.ini st.cur k v, st.cur⟩
  | .badHeader l => .error (.missingBracket l)
  | .badEntry l => .error (.invalidLine l)

/-- The constructor loop over the remaining lines: on success the built
store, on a syntax error the error (no store escapes to the caller). -/
def parseLines : PState → List String → Except SyntaxErr inifile
  | st, [] => .ok st.ini
  | st, l :: ls =>
    match processLine st l with
    | .error e => .error e
    | .ok st' => parseLines st' ls

/-- Models `inifile::inifile`: parse a whole document, given as its list of
lines, starting from an empty store with `cursec = &defaultsection_`. -/
def parse (lines : List String) : Except SyntaxErr inifile :=
  parseLines ⟨emptyIni, none⟩ lines

/-! ### Query API -/

/-- Models the two-argument `inifile::get`: unknown-section check, then
unknown-entry check, then the stored value.  On a present section with an
absent key the source constructs `unknown_entry_error(section, key)`,
passing the section name as the constructor's key parameter and the key as
its section parameter; `unknownEntry2 sec key` reproduces that order. -/
def inifile.get (f : inifile) (sec key : String) : Except IniError String :=
  match f.sections_ sec with
  | none => .error (.unknownSection sec)
  | some m =>
    match m key with
    | none => .error (.unknownEntry2 sec key)
    | some v => .ok v

/-- Models the one-argument `inifile::get` against the default section. -/
def inifile.getDefault (f : inifile) (key : String) : Except IniError String :=
  match f.defaultsection_ key with
  | none => .error (.unknownEntry1 key)
  | some v => .ok v

/-- Models the three-argument `inifile::dget`: `get` with
`unknown_section_error` and `unknown_entry_error` (the only errors `get`
produces) caught and replaced by the default value. -/
def inifile.dget (f : inifile) (sec key d : String) : String :=
  match f.get sec key with
  | .ok v => v
  | .error _ => d

/-- Models the two-argument `inifile::dget`: the one-argument `get` with
`unknown_entry_error` (the only error it produces) caught and replaced by
the default value. -/
def inifile.dgetDefault (f : inifile) (key d : String) : String :=
  match f.getDefault key with
  | .ok v => v
  | .error _ => d

/-- Models `inipp::inisection`: the section name together with the borrowed
`inifile` reference. -/
structure inisection where
  _section : String
  _ini : inifile

/-- Models `inifile::section`: unknown-section check, then a handle bound
to the name and the store. -/
def inifile.sectionHandle (f : inifile) (name : String) : Except IniError inisection :=
  match f.sections_ name with
  | none => .error (.unknownSection name)
  | some _ => .ok ⟨name, f⟩

/-- Models `inisection::name`. -/
def inisection.name (s : inisection) : String :=
  s._section

/-- Models `inisection::get`: delegates to `_ini.get(_section, key)`. -/
def inisection.get (s : inisection) (key : String) : Except IniError String :=
  s._ini.get s._section key

/-- Models `inisection::dget`: delegates to `_ini.dget(_section, key, d)`. -/
def inisection.dget (s : inisection) (key d : String) : String :=
  s._ini.dget s._section key d

/-! ### Typed accessors

`getval<T>` extracts from `std::istringstream{src}` with `>> std::boolalpha`
and succeeds only when a subsequent `>> c` into a `char` fails, i.e. when at
most whitespace follows the extracted token.  Extraction is modelled by a
parameter `p` consuming a character list and returning the value and the
rest; the `int` and `bool` instances below model `std::num_get` under the
default ("C") locale. -/

/-- The character class `std::istream` skips as whitespace under the
default locale (the set `isspace` accepts in the "C" locale). -/
def isSpaceC (c : Char) : Bool :=
  c = ' ' || c = '\t' || c = '\n' || c = '\x0b' || c = '\x0c' || c = '\r'

/-- Numeric value of a digit string. -/
def digitsVal (ds : List Char) : Nat :=
  ds.foldl (fun a c => a * 10 + (c.toNat - 48)) 0

/-- Models `operator>>` into an `int` (default `dec` base, "C" locale):
skip whitespace, optional sign, then a nonempty digit run.  The value is
kept as an unbounded integer; out-of-range overflow is out of scope. -/
def extractInt (l : List Char) : Option (Int × List Char) :=
  let l1 := l.dropWhile isSpaceC
  match l1 with
  | '-' :: r =>
    let ds := r.takeWhile Char.isDigit
    if ds.isEmpty then none
    else some (-(digitsVal ds : Int), r.drop ds.length)
  | '+' :: r =>
    let ds := r.takeWhile Char.isDigit
    if ds.isEmpty then none
    else some ((digitsVal ds : Int), r.drop ds.length)
  | _ =>
    let ds := l1.takeWhile Char.isDigit
    if ds.isEmpty then none
    else some ((digitsVal ds : Int), l1.drop ds.length)

/-- Models `operator>>` into a `bool` under `std::boolalpha`: skip
whitespace, then match one of the target sequences
`numpunct<char>::truename()` and `falsename()`, which under the default
("C") locale are exactly the strings `true` and `false`; the comparison is
by character equality, hence case-sensitive. -/
def extractBool (l : List Char) : Option (Bool × List Char) :=
  let l1 := l.dropWhile isSpaceC
  if ("true".data).isPrefixOf l1 then some (true, l1.drop 4)
  else if ("false".data).isPrefixOf l1 then some (false, l1.drop 5)
  else none

/-- The tail of `getval` after a successful lookup: run the extraction on
the stored string; succeed only when extraction succeeds and `>> c` into a
`char` then fails, i.e. nothing but whitespace remains. -/
def extractWhole {T : Type} (p : List Char → Option (T × List Char)) (src : String) :
    Option T :=
  match p src.data with
  | none => none
  | some (rv, rest) => if (rest.dropWhile isSpaceC).isEmpty then some rv else none

/-- Models the template `inifile::getval<T>` at an instantiation whose
stream extraction is modelled by `p`: `get` under a catch-all returning the
default, then extraction with the whole-string check. -/
def inifile.getval {T : Type} (p : List Char → Option (T × List Char))
    (f : inifile) (sec key : String) (d : T) : T :=
  match f.get sec key with
  | .error _ => d
  | .ok src => (extractWhole p src).getD d

/-- The `int` instance of `inifile::getval`. -/
def inifile.getvalInt (f : inifile) (sec key : String) (d : Int) : Int :=
  f.getval extractInt sec key d

/-- The `bool` instance of `inifile::getval`. -/
def inifile.getvalBool (f : inifile) (sec key : String) (d : Bool) : Bool :=
  f.getval extractBool sec key d

/-- Models the template `inisection::getval<T>`: the same body against the
one-argument `get` of the handle. -/
def inisection.getval {T : Type} (p : List Char → Option (T × List Char))
    (s : inisection) (key : String) (d : T) : T :=
  match s.get key with
  | .error _ => d
  | .ok src => (extractWhole p src).getD d

end Inipp

namespace Inipp

/-! ### Spec-side characterisation of syntax errors -/

/-- Stated from the claim wording: a line is bad when, after whitespace
trimming followed by comment stripping, it is non-empty and either begins
with `[` but does not end with `]`, or does not begin with `[` and
contains no `=` character. -/
def badLine (raw : String) : Bool :=
  let l := strip_comment (trim raw)
  !l.data.isEmpty &&
    (if l.data.head? = some '[' then !(l.data.getLast? == some ']')
     else !l.data.contains '=')

/-- Whether a classified line makes the constructor throw. -/
def LineKind.isBad : LineKind → Bool
  | .badHeader _ => true
  | .badEntry _ => true
  | _ => false

theorem isBad_classify (raw : String) : (classify raw).isBad = badLine raw := by
  unfold classify badLine
  set l := strip_comment (trim raw) with hl
  by_cases h0 : l.data.isEmpty
  · simp [h0, LineKind.isBad]
  · by_cases h1 : l.data.head? = some '['
    · by_cases h2 : l.data.getLast? = some ']'
      · simp [h0, h1, h2, LineKind.isBad]
      · simp [h0, h1, h2, LineKind.isBad]
    · by_cases h3 : '=' ∈ l.data
      · simp [h0, h1, h3, splitEq, LineKind.isBad]
      · simp [h0, h1, h3, splitEq, LineKind.isBad]

theorem processLine_isOk (st : PState) (raw : String) :
    (∃ st2, processLine st raw = .ok st2) ↔ badLine raw = false := by
  rw [← isBad_classify]
  unfold processLine
  cases classify raw <;> simp [LineKind.isBad]

theorem processLine_bad_error (st : PState) (raw : String) (h : badLine raw = true) :
    ∃ e, processLine st raw = .error e := by
  cases hp : processLine st raw with
  | ok st2 =>
    have hf := (processLine_isOk st raw).mp ⟨st2, hp⟩
    rw [h] at hf
    cases hf
  | error e => exact ⟨e, rfl⟩

theorem isOk_iff_exists (e : Except SyntaxErr inifile) :
    e.isOk = true ↔ ∃ f, e = .ok f := by
  cases e <;> simp [Except.isOk, Except.toBool]

theorem parseLines_isOk_iff : ∀ (ls : List String) (st : PState),
    (∃ f, parseLines st ls = .ok f) ↔ ∀ l ∈ ls, badLine l = false := by
  intro ls
  induction ls with
  | nil =>
    intro st
    simp [parseLines]
  | cons l ls ih =>
    intro st
    unfold parseLines
    cases hp : processLine st l with
    | error e =>
      constructor
      · rintro ⟨f, hf⟩
        cases hf
      · intro hall
        obtain ⟨st2, hst2⟩ := (processLine_isOk st l).mpr (hall l (by simp))
        rw [hp] at hst2
        cases hst2
    | ok st2 =>
      constructor
      · intro hex l2 hl2
        rcases List.mem_cons.mp hl2 with hcase | hcase
        · subst hcase
          exact (processLine_isOk st l2).mp ⟨st2, hp⟩
        · exact (ih st2).mp hex l2 hcase
      · intro hall
        exact (ih st2).mpr (fun x hx => hall x (List.mem_cons_of_mem _ hx))

theorem parseLines_abort (bad : String) (hb : badLine bad = true) :
    ∀ (pre rest : List String) (st : PState),
      parseLines st (pre ++ bad :: rest) = parseLines st (pre ++ [bad]) := by
  intro pre
  induction pre with
  | nil =>
    intro rest st
    simp only [List.nil_append]
    obtain ⟨e, he⟩ := processLine_bad_error st bad hb
    unfold parseLines
    rw [he]
  | cons p pre ih =>
    intro rest st
    simp only [List.cons_append]
    unfold parseLines
    cases hp : processLine st p with
    | error e => rfl
    | ok st2 => exact ih rest st2

/-- C1: the constructor fails with a syntax error exactly when some line,
after trimming then comment stripping, is non-empty and either starts with
`[` without ending in `]` or starts otherwise and contains no `=`; the
parse stops at the first such line (the lines after it are irrelevant), and
on failure no store is returned. -/
theorem C1_syntax_error_iff :
    (∀ lines : List String,
      (parse lines).isOk = true ↔ ∀ l ∈ lines, badLine l = false)
    ∧ (∀ (pre : List String) (bad : String) (rest : List String),
        badLine bad = true → parse (pre ++ bad :: rest) = parse (pre ++ [bad])) := by
  constructor
  · intro lines
    rw [isOk_iff_exists]
    exact parseLines_isOk_iff lines ⟨emptyIni, none⟩
  · intro pre bad rest hb
    exact parseLines_abort bad hb pre rest ⟨emptyIni, none⟩

/-- Witness for C1 at concrete inputs: a well-formed document parses, and a
document with an unterminated header aborts identically with or without
trailing lines. -/
theorem C1_witness :
    (parse ["k=1", "[a]"]).isOk = true
    ∧ parse (["k=1"] ++ "[a" :: ["z=1"]) = parse (["k=1"] ++ ["[a"]) :=
  ⟨(C1_syntax_error_iff.1 ["k=1", "[a]"]).mpr (by decide),
   C1_syntax_error_iff.2 ["k=1"] "[a" ["z=1"] (by decide)⟩

end Inipp

namespace Inipp

/-! ### Spec-side characterisation of the built store -/

/-- Raw lookup in `sections_`: the stored value of `key` in section `sec`,
when both exist. -/
def lookup2 (f : inifile) (sec key : String) : Option String :=
  match f.sections_ sec with
  | none => none
  | some m => m key

/-- Lookup in the map a `cursec` target designates: the default section for
`none`, the named section for `some sec`. -/
def lookupT (f : inifile) : Option String → String → Option String
  | none, q => f.defaultsection_ q
  | some sec, q => lookup2 f sec q

/-- Left-biased choice on optional values. -/
def oOr (a b : Option String) : Option String :=
  match a with
  | some v => some v
  | none => b

/-- Stated from the spec wording: the section names declared by the
document's header lines, in order. -/
def headerNames : List String → List String
  | [] => []
  | l :: ls =>
    match classify l with
    | .header n => n :: headerNames ls
    | _ => headerNames ls

/-- Stated from the spec wording: the sequence of assignments a document
performs, each tagged with its target (the default section for entries
before any header, the section of the most recent header afterwards). -/
def assigns : Option String → List String → List (Option String × String × String)
  | _, [] => []
  | c, l :: ls =>
    match classify l with
    | .header n => assigns (some n) ls
    | .entry k v => (c, k, v) :: assigns c ls
    | _ => assigns c ls

/-- Stated from the spec wording: the value of the last assignment to
target `t` and key `q` in an assignment sequence (later assignments win). -/
def lastAssign : List (Option String × String × String) → Option String → String → Option String
  | [], _, _ => none
  | (c, k, v) :: rest, t, q =>
    match lastAssign rest t q with
    | some w => some w
    | none => if c = t ∧ k = q then some v else none

theorem updKV_eval (m : String → Option String) (k v q : String) :
    updKV m k v q = if k = q then some v else m q := by
  unfold updKV
  by_cases h : q = k
  · subst h
    simp
  · rw [if_neg h, if_neg (fun hh : k = q => h hh.symm)]

theorem lookup2_ensureSec (f : inifile) (n sec key : String) :
    lookup2 (ensureSec f n) sec key = lookup2 f sec key := by
  unfold ensureSec lookup2
  cases hn : f.sections_ n with
  | some m => rfl
  | none =>
    by_cases hs : sec = n
    · subst hs
      simp [hn]
    · simp [hs]

theorem lookupT_ensureSec (f : inifile) (n : String) (t : Option String) (q : String) :
    lookupT (ensureSec f n) t q = lookupT f t q := by
  cases t with
  | none =>
    unfold ensureSec lookupT
    cases hn : f.sections_ n <;> rfl
  | some sec => exact lookup2_ensureSec f n sec q

theorem isSome_ensureSec (f : inifile) (n sec : String) :
    (((ensureSec f n).sections_ sec).isSome = true) ↔
      ((f.sections_ sec).isSome = true ∨ sec = n) := by
  unfold ensureSec
  cases hn : f.sections_ n with
  | some m =>
    constructor
    · exact fun h => Or.inl h
    · rintro (h | h)
      · exact h
      · subst h
        rw [hn]
        rfl
  | none =>
    by_cases hs : sec = n
    · subst hs
      simp [hn]
    · simp [hs]

theorem isSome_setCur (f : inifile) (cur : Option String) (k v : String) (sec : String)
    (hwf : ∀ n, cur = some n → (f.sections_ n).isSome = true) :
    ((setCur f cur k v).sections_ sec).isSome = (f.sections_ sec).isSome := by
  cases cur with
  | none => rfl
  | some n =>
    simp only [setCur]
    by_cases hs : sec = n
    · subst hs
      rw [hwf sec rfl]
      simp
    · simp [hs]

theorem lookupT_setCur (f : inifile) (cur : Option String) (k v : String)
    (t : Option String) (q : String) :
    lookupT (setCur f cur k v) t q =
      if cur = t ∧ k = q then some v else lookupT f t q := by
  cases cur with
  | none =>
    cases t with
    | none =>
      simp only [setCur, lookupT, updKV_eval]
      by_cases hk : k = q <;> simp [hk]
    | some s =>
      rw [if_neg (fun hh => Option.noConfusion hh.1)]
      rfl
  | some n =>
    cases t with
    | none =>
      rw [if_neg (fun hh => Option.noConfusion hh.1)]
      rfl
    | some s =>
      by_cases hs : s = n
      · subst hs
        by_cases hk : k = q
        · subst hk
          simp [setCur, lookupT, lookup2, updKV]
        · have hcond : ¬(some s = some s ∧ k = q) := fun hh => hk hh.2
          simp only [setCur, lookupT, lookup2, if_pos rfl, if_neg hcond, updKV_eval,
            if_neg hk]
          cases hf : f.sections_ s <;> simp [updKV_eval]
      · have hcond : ¬(some n = some s ∧ k = q) := fun hh => hs (Option.some.inj hh.1).symm
        have hsn : ¬(s = n) := hs
        simp only [setCur, lookupT, lookup2, if_neg hcond, if_neg hsn]

/-- Well-formedness of the loop state: whenever `cursec` points at a named
section, that section is present in the store (the constructor establishes
this by creating the map on the header path). -/
def WFst (st : PState) : Prop :=
  ∀ n, st.cur = some n → (st.ini.sections_ n).isSome = true

theorem oOr_none (a : Option String) : oOr a none = a := by
  cases a <;> rfl

theorem lookupT_empty (t : Option String) (q : String) : lookupT emptyIni t q = none := by
  cases t <;> rfl

theorem parseLines_inv : ∀ (ls : List String) (st : PState) (res : inifile),
    parseLines st ls = .ok res → WFst st →
    ((∀ sec, ((res.sections_ sec).isSome = true) ↔
        ((st.ini.sections_ sec).isSome = true ∨ sec ∈ headerNames ls))
     ∧ (∀ t q, lookupT res t q = oOr (lastAssign (assigns st.cur ls) t q) (lookupT st.ini t q))) := by
  intro ls
  induction ls with
  | nil =>
    intro st res h hwf
    simp only [parseLines] at h
    injection h with h
    subst h
    constructor
    · intro sec
      simp [headerNames]
    · intro t q
      simp [assigns, lastAssign, oOr]
  | cons l ls ih =>
    intro st res h hwf
    cases hc : classify l with
    | empty =>
      simp only [parseLines, processLine, hc] at h
      obtain ⟨h1, h2⟩ := ih st res h hwf
      constructor
      · intro sec
        simpa only [headerNames, hc] using h1 sec
      · intro t q
        simpa only [assigns, hc] using h2 t q
    | header n =>
      simp only [parseLines, processLine, hc] at h
      have hwf2 : WFst ⟨ensureSec st.ini n, some n⟩ := by
        intro m hm
        injection hm with hm
        subst hm
        exact (isSome_ensureSec _ _ _).mpr (Or.inr rfl)
      obtain ⟨h1, h2⟩ := ih _ res h hwf2
      constructor
      · intro sec
        have := h1 sec
        rw [show (⟨ensureSec st.ini n, some n⟩ : PState).ini = ensureSec st.ini n from rfl,
          isSome_ensureSec] at this
        simp only [headerNames, hc, List.mem_cons]
        rw [this]
        tauto
      · intro t q
        have := h2 t q
        rw [show (⟨ensureSec st.ini n, some n⟩ : PState).ini = ensureSec st.ini n from rfl,
          lookupT_ensureSec] at this
        simpa only [assigns, hc] using this
    | entry k v =>
      simp only [parseLines, processLine, hc] at h
      have hwf2 : WFst ⟨setCur st.ini st.cur k v, st.cur⟩ := by
        intro m hm
        simp only at hm
        simp [setCur, hm]
      obtain ⟨h1, h2⟩ := ih _ res h hwf2
      constructor
      · intro sec
        have := h1 sec
        rw [show (⟨setCur st.ini st.cur k v, st.cur⟩ : PState).ini = setCur st.ini st.cur k v
          from rfl, isSome_setCur st.ini st.cur k v sec hwf] at this
        simpa only [headerNames, hc] using this
      · intro t q
        have := h2 t q
        rw [show (⟨setCur st.ini st.cur k v, st.cur⟩ : PState).ini = setCur st.ini st.cur k v
          from rfl, lookupT_setCur] at this
        simp only [assigns, hc, lastAssign]
        rw [this]
        cases hA : lastAssign (assigns st.cur ls) t q with
        | some w => simp [oOr]
        | none =>
          by_cases hcond : st.cur = t ∧ k = q
          · simp [oOr, hcond]
          · simp [oOr, hcond]
    | badHeader lb =>
      simp only [parseLines, processLine, hc] at h
      exact Except.noConfusion h
    | badEntry lb =>
      simp only [parseLines, processLine, hc] at h
      exact Except.noConfusion h

theorem parse_char (lines : List String) (res : inifile) (h : parse lines = .ok res) :
    (∀ sec, ((res.sections_ sec).isSome = true) ↔ sec ∈ headerNames lines)
    ∧ (∀ t q, lookupT res t q = lastAssign (assigns none lines) t q) := by
  have hwf : WFst ⟨emptyIni, none⟩ := by
    intro n hn
    cases hn
  obtain ⟨h1, h2⟩ := parseLines_inv lines ⟨emptyIni, none⟩ res h hwf
  constructor
  · intro sec
    rw [h1 sec]
    simp [emptyIni]
  · intro t q
    rw [h2 t q, lookupT_empty, oOr_none]

end Inipp

namespace Inipp

/-- The successfully parsed store of a document, used by closed witness
statements; a syntax error falls back to the empty store. -/
def resOf (lines : List String) : inifile :=
  match parse lines with
  | .ok f => f
  | .error _ => emptyIni

theorem get_eq_ok_iff (f : inifile) (sec key v : String) :
    f.get sec key = .ok v ↔ lookup2 f sec key = some v := by
  unfold inifile.get lookup2
  cases f.sections_ sec with
  | none => simp
  | some m => cases hm : m key <;> simp [hm]

theorem getDefault_eq_ok_iff (f : inifile) (key v : String) :
    f.getDefault key = .ok v ↔ f.defaultsection_ key = some v := by
  unfold inifile.getDefault
  cases f.defaultsection_ key <;> simp

/-- C2: in a successfully parsed store, a section is present exactly when
some header line declared its name (all occurrences of one name share one
map), and `get` returns `v` exactly when the last assignment targeting that
section and key — across all entry lines under any occurrence of the
header, later ones overwriting earlier ones — set `v`. -/
theorem C2_last_write_wins :
    ∀ (lines : List String) (res : inifile), parse lines = .ok res →
      (∀ sec, ((res.sections_ sec).isSome = true) ↔ sec ∈ headerNames lines)
      ∧ (∀ sec key v, res.get sec key = .ok v ↔
          lastAssign (assigns none lines) (some sec) key = some v) := by
  intro lines res h
  obtain ⟨h1, h2⟩ := parse_char lines res h
  refine ⟨h1, fun sec key v => ?_⟩
  rw [get_eq_ok_iff]
  rw [show lookup2 res sec key = lookupT res (some sec) key from rfl, h2]

/-- Witness for C2: under a repeated `[a]` header the entries merge and the
later `x=3` overwrites the earlier `x=1`. -/
theorem C2_witness :
    (resOf ["[a]", "x=1", "[b]", "[a]", "y=2", "x=3"]).get "a" "x" = .ok "3" := by
  have h := C2_last_write_wins ["[a]", "x=1", "[b]", "[a]", "y=2", "x=3"]
    (resOf ["[a]", "x=1", "[b]", "[a]", "y=2", "x=3"]) rfl
  exact (h.2 "a" "x" "3").mpr (by decide)

/-- C3: entries before any header land in the implicit default section and
are read back by the one-argument `get`; concretely the document
`k=1`, `[a]`, `k=2` yields `get("k") = "1"` and `get("a","k") = "2"`. -/
theorem C3_default_section :
    (∀ (lines : List String) (res : inifile), parse lines = .ok res →
      ∀ key v, res.getDefault key = .ok v ↔
        lastAssign (assigns none lines) none key = some v)
    ∧ (parse ["k=1", "[a]", "k=2"]).map
        (fun f => (f.getDefault "k", f.get "a" "k")) = .ok (.ok "1", .ok "2") := by
  constructor
  · intro lines res h key v
    obtain ⟨h1, h2⟩ := parse_char lines res h
    rw [getDefault_eq_ok_iff]
    rw [show res.defaultsection_ key = lookupT res none key from rfl, h2]
  · rfl

/-- Witness for C3: the default-section lookup of the example document. -/
theorem C3_witness :
    (resOf ["k=1", "[a]", "k=2"]).getDefault "k" = .ok "1" :=
  (C3_default_section.1 ["k=1", "[a]", "k=2"] (resOf ["k=1", "[a]", "k=2"]) rfl
    "k" "1").mpr (by decide)

/-- C4: on a parsed store, `get` fails with the unknown-section error
exactly when no header declared the section; it fails with an unknown-entry
error exactly when the section was declared but no assignment set the key;
otherwise it succeeds.  `section` fails with the unknown-section error
under the same condition, and a successful handle answers `get` and `dget`
exactly as the two-argument store forms do. -/
theorem C4_lookup_errors :
    ∀ (lines : List String) (res : inifile), parse lines = .ok res →
      ∀ sec key d,
        (res.get sec key = .error (.unknownSection sec) ↔ ¬ sec ∈ headerNames lines)
        ∧ ((∃ a b, res.get sec key = .error (.unknownEntry2 a b)) ↔
            (sec ∈ headerNames lines ∧
             lastAssign (assigns none lines) (some sec) key = none))
        ∧ ((∃ v, res.get sec key = .ok v) ↔
            (sec ∈ headerNames lines ∧
             ¬ lastAssign (assigns none lines) (some sec) key = none))
        ∧ (res.sectionHandle sec = .error (.unknownSection sec) ↔ ¬ sec ∈ headerNames lines)
        ∧ (∀ hnd, res.sectionHandle sec = .ok hnd →
            hnd.get key = res.get sec key ∧ hnd.dget key d = res.dget sec key d) := by
  intro lines res h sec key d
  obtain ⟨h1, h2⟩ := parse_char lines res h
  have hmem := h1 sec
  have hla : lookup2 res sec key = lastAssign (assigns none lines) (some sec) key :=
    h2 (some sec) key
  cases hs : res.sections_ sec with
  | none =>
    have hnotmem : ¬ sec ∈ headerNames lines := by
      rw [← hmem, hs]
      simp
    have hlan : lastAssign (assigns none lines) (some sec) key = none := by
      rw [← hla]
      unfold lookup2
      rw [hs]
    refine ⟨?_, ?_, ?_, ?_, ?_⟩
    · simp [inifile.get, hs, hnotmem]
    · simp [inifile.get, hs, hnotmem]
    · simp [inifile.get, hs, hnotmem]
    · simp [inifile.sectionHandle, hs, hnotmem]
    · intro hnd hctr
      simp [inifile.sectionHandle, hs] at hctr
  | some m =>
    have hexists : sec ∈ headerNames lines := by
      rw [← hmem, hs]
      rfl
    have hlam : lastAssign (assigns none lines) (some sec) key = m key := by
      rw [← hla]
      unfold lookup2
      rw [hs]
    cases hm : m key with
    | none =>
      refine ⟨?_, ?_, ?_, ?_, ?_⟩
      · simp [inifile.get, hs, hm, hexists]
      · simp [inifile.get, hs, hm, hexists, hlam]
      · simp [inifile.get, hs, hm, hexists, hlam]
      · simp [inifile.sectionHandle, hs, hexists]
      · intro hnd hok
        have hhnd : hnd = ⟨sec, res⟩ := by
          simp [inifile.sectionHandle, hs] at hok
          exact hok.symm
        subst hhnd
        exact ⟨rfl, rfl⟩
    | some w =>
      refine ⟨?_, ?_, ?_, ?_, ?_⟩
      · simp [inifile.get, hs, hm, hexists]
      · simp [inifile.get, hs, hm, hexists, hlam]
      · simp [inifile.get, hs, hm, hexists, hlam]
      · simp [inifile.sectionHandle, hs, hexists]
      · intro hnd hok
        have hhnd : hnd = ⟨sec, res⟩ := by
          simp [inifile.sectionHandle, hs] at hok
          exact hok.symm
        subst hhnd
        exact ⟨rfl, rfl⟩

/-- Witness for C4 on a concrete store: a missing section, a missing key in
a present section, a successful lookup, and handle delegation. -/
theorem C4_witness :
    (resOf ["[a]", "k=v"]).get "b" "k" = .error (.unknownSection "b")
    ∧ (∃ a b, (resOf ["[a]", "k=v"]).get "a" "z" = .error (.unknownEntry2 a b))
    ∧ (∃ v, (resOf ["[a]", "k=v"]).get "a" "k" = .ok v) := by
  have h1 := C4_lookup_errors ["[a]", "k=v"] (resOf ["[a]", "k=v"]) rfl "b" "k" ""
  have h2 := C4_lookup_errors ["[a]", "k=v"] (resOf ["[a]", "k=v"]) rfl "a" "z" ""
  have h3 := C4_lookup_errors ["[a]", "k=v"] (resOf ["[a]", "k=v"]) rfl "a" "k" ""
  exact ⟨h1.1.mpr (by decide), h2.2.1.mpr (by decide), h3.2.2.1.mpr (by decide)⟩

end Inipp

namespace Inipp

/-- C5: both `dget` forms are total: they return the stored string exactly
when the corresponding `get` succeeds (unaltered), and the supplied
fallback exactly when it would have failed. -/
theorem C5_dget_total :
    ∀ (f : inifile) (sec key d : String),
      ((∃ e, f.get sec key = .error e) → f.dget sec key d = d)
      ∧ (∀ v, f.get sec key = .ok v → f.dget sec key d = v)
      ∧ ((∃ e, f.getDefault key = .error e) → f.dgetDefault key d = d)
      ∧ (∀ v, f.getDefault key = .ok v → f.dgetDefault key d = v) := by
  intro f sec key d
  refine ⟨?_, ?_, ?_, ?_⟩
  · rintro ⟨e, he⟩
    simp [inifile.dget, he]
  · intro v hv
    simp [inifile.dget, hv]
  · rintro ⟨e, he⟩
    simp [inifile.dgetDefault, he]
  · intro v hv
    simp [inifile.dgetDefault, hv]

/-- Witness for C5: present keys come back verbatim, absent section/key and
absent default-section key produce the fallback. -/
theorem C5_witness :
    (resOf ["d=1", "[a]", "k=v"]).dget "a" "k" "fb" = "v"
    ∧ (resOf ["d=1", "[a]", "k=v"]).dget "b" "k" "fb" = "fb"
    ∧ (resOf ["d=1", "[a]", "k=v"]).dgetDefault "d" "fb" = "1"
    ∧ (resOf ["d=1", "[a]", "k=v"]).dgetDefault "z" "fb" = "fb" := by
  have h1 := C5_dget_total (resOf ["d=1", "[a]", "k=v"]) "a" "k" "fb"
  have h2 := C5_dget_total (resOf ["d=1", "[a]", "k=v"]) "b" "k" "fb"
  have h3 := C5_dget_total (resOf ["d=1", "[a]", "k=v"]) "a" "d" "fb"
  have h4 := C5_dget_total (resOf ["d=1", "[a]", "k=v"]) "a" "z" "fb"
  exact ⟨h1.2.1 "v" rfl, h2.1 ⟨.unknownSection "b", rfl⟩,
    h3.2.2.2 "1" rfl, h4.2.2.1 ⟨.unknownEntry1 "z", rfl⟩⟩

/-- C6: the typed accessor returns the default whenever the lookup fails
for any reason; on a stored string it returns the extracted value exactly
when extraction succeeds and only whitespace remains (a trailing
non-whitespace character after a partial parse, or a failed parse, yields
the default); concretely a stored `42` with `int` default `0` gives `42`, a
stored `notabool` with `bool` default `false` gives `false`, a stored
`42 xyz` gives the `int` default, and an absent key gives the default. -/
theorem C6_getval_default_or_whole_parse :
    (∀ (T : Type) (p : List Char → Option (T × List Char))
       (f : inifile) (sec key : String) (d : T),
      ((∃ e, f.get sec key = .error e) → f.getval p sec key d = d)
      ∧ (∀ src, f.get sec key = .ok src →
          (p src.data = none → f.getval p sec key d = d)
          ∧ (∀ rv rest, p src.data = some (rv, rest) →
              ((rest.dropWhile isSpaceC = [] → f.getval p sec key d = rv)
               ∧ (¬ rest.dropWhile isSpaceC = [] → f.getval p sec key d = d)))))
    ∧ (resOf ["[a]", "n=42", "f=notabool", "x=42 xyz"]).getvalInt "a" "n" 0 = 42
    ∧ (resOf ["[a]", "n=42", "f=notabool", "x=42 xyz"]).getvalBool "a" "f" false = false
    ∧ (resOf ["[a]", "n=42", "f=notabool", "x=42 xyz"]).getvalInt "a" "x" 7 = 7
    ∧ (resOf ["[a]", "n=42", "f=notabool", "x=42 xyz"]).getvalInt "a" "m" 7 = 7 := by
  refine ⟨?_, by decide, by decide, by decide, by decide⟩
  intro T p f sec key d
  constructor
  · rintro ⟨e, he⟩
    simp [inifile.getval, he]
  · intro src hsrc
    constructor
    · intro hp
      simp [inifile.getval, hsrc, extractWhole, hp]
    · intro rv rest hp
      constructor
      · intro hres
        simp [inifile.getval, hsrc, extractWhole, hp, hres]
      · intro hres
        have hne : (rest.dropWhile isSpaceC).isEmpty = false := by
          cases hdw : rest.dropWhile isSpaceC with
          | nil => exact absurd hdw hres
          | cons a l => rfl
        simp [inifile.getval, hsrc, extractWhole, hp, hne]

/-- Witness for C6: an absent key yields the default and a stored `42`
yields the parsed integer, via the general characterisation. -/
theorem C6_witness :
    (resOf ["[a]", "n=42"]).getval extractInt "a" "q" (5 : Int) = 5
    ∧ (resOf ["[a]", "n=42"]).getval extractInt "a" "n" (5 : Int) = 42 := by
  have h1 := C6_getval_default_or_whole_parse.1 Int extractInt
    (resOf ["[a]", "n=42"]) "a" "q" 5
  have h2 := C6_getval_default_or_whole_parse.1 Int extractInt
    (resOf ["[a]", "n=42"]) "a" "n" 5
  exact ⟨h1.1 ⟨.unknownEntry2 "a" "q", rfl⟩, ((h2.2 "42" rfl).2 42 [] rfl).1 rfl⟩

/-- Counterexample to C7 as stated: the stored value `TRUE` is a
letter-case variant of `true`, yet boolean `getval` with default `false`
returns `false`, not `true`: the `boolalpha` target sequences of the
default locale are matched case-sensitively. -/
theorem C7_counterexample :
    (resOf ["[a]", "f=TRUE"]).get "a" "f" = .ok "TRUE"
    ∧ ¬ ((resOf ["[a]", "f=TRUE"]).getvalBool "a" "f" false = true) :=
  ⟨rfl, by decide⟩

/-- C7 amended: boolean `getval` parsing matches only the exact lowercase
textual forms `true` and `false`; a stored `true` with default `false`
yields `true` and a stored `false` with default `true` yields `false`,
while other letter-case variants fail to parse and yield the default. -/
theorem C7_bool_exact_case :
    ∀ (f : inifile) (sec key : String),
      (f.get sec key = .ok "true" → f.getvalBool sec key false = true)
      ∧ (f.get sec key = .ok "false" → f.getvalBool sec key true = false)
      ∧ (∀ d, f.get sec key = .ok "TRUE" → f.getvalBool sec key d = d)
      ∧ (∀ d, f.get sec key = .ok "True" → f.getvalBool sec key d = d)
      ∧ (∀ d, f.get sec key = .ok "FALSE" → f.getvalBool sec key d = d) := by
  intro f sec key
  refine ⟨fun h => ?_, fun h => ?_, fun d h => ?_, fun d h => ?_, fun d h => ?_⟩ <;>
    (simp only [inifile.getvalBool, inifile.getval, h]; rfl)

/-- Witness for C7 amended: the exact forms on a parsed store. -/
theorem C7_witness :
    (resOf ["[a]", "t=true", "f=false"]).getvalBool "a" "t" false = true
    ∧ (resOf ["[a]", "t=true", "f=false"]).getvalBool "a" "f" true = false
    ∧ (resOf ["[a]", "u=True"]).getvalBool "a" "u" false = false := by
  have h1 := C7_bool_exact_case (resOf ["[a]", "t=true", "f=false"]) "a" "t"
  have h2 := C7_bool_exact_case (resOf ["[a]", "t=true", "f=false"]) "a" "f"
  have h3 := C7_bool_exact_case (resOf ["[a]", "u=True"]) "a" "u"
  exact ⟨h1.1 rfl, h2.2.1 rfl, h3.2.2.2.1 false rfl⟩

/-- The key/value map a store holds for a section, used by closed
witnesses; absent sections give the empty map. -/
def secMapOf (f : inifile) (sec : String) : String → Option String :=
  (f.sections_ sec).getD (fun _ => none)

/-- C10: when the section exists but the key is absent, `get` constructs
its unknown-entry error as `unknown_entry_error(section, key)`: the
section name fills the constructor's key parameter and is therefore
reported as the unknown entry, while the key fills the section parameter
and is reported as the containing section. -/
theorem C10_swapped_error_args :
    ∀ (f : inifile) (sec key : String) (m : String → Option String),
      f.sections_ sec = some m → m key = none →
      f.get sec key = .error (.unknownEntry2 sec key)
      ∧ (IniError.unknownEntry2 sec key).reportedEntry = some sec
      ∧ (IniError.unknownEntry2 sec key).reportedSection = some key := by
  intro f sec key m hs hm
  refine ⟨?_, rfl, rfl⟩
  simp [inifile.get, hs, hm]

/-- Witness for C10: a present section `a` with absent key `y` produces
the unknown-entry error that carries the section in the entry position. -/
theorem C10_witness :
    (resOf ["[a]", "x=1"]).get "a" "y" = .error (.unknownEntry2 "a" "y") :=
  (C10_swapped_error_args (resOf ["[a]", "x=1"]) "a" "y"
    (secMapOf (resOf ["[a]", "x=1"]) "a") rfl rfl).1

end Inipp

namespace Inipp

/-! ### Spec-side characterisation of comment stripping -/

/-- Stated from the spec wording: truncate a string at the first occurrence
of the single marker character `c`. -/
def truncAt (c : Char) (s : String) : String :=
  ⟨s.data.takeWhile (fun x => x != c)⟩

theorem takeWhile_hash_semi (l : List Char) :
    (l.takeWhile (fun x => x != '#')).takeWhile (fun x => x != ';') =
      if (l.takeWhile (fun x => x != '#')).length ≤ (l.takeWhile (fun x => x != ';')).length
      then l.takeWhile (fun x => x != '#')
      else l.takeWhile (fun x => x != ';') := by
  induction l with
  | nil => simp
  | cons c l ih =>
    by_cases h1 : c = '#'
    · subst h1
      simp [List.takeWhile_cons]
    · by_cases h2 : c = ';'
      · subst h2
        simp [List.takeWhile_cons]
      · have hc1 : (c != '#') = true := by simp [h1]
        have hc2 : (c != ';') = true := by simp [h2]
        simp only [List.takeWhile_cons, hc1, hc2, if_true, List.length_cons]
        rw [ih, apply_ite (fun t : List Char => c :: t)]
        by_cases hle : (l.takeWhile (fun x => x != '#')).length
            ≤ (l.takeWhile (fun x => x != ';')).length
        · rw [if_pos hle, if_pos (Nat.succ_le_succ hle)]
        · rw [if_neg hle, if_neg (fun hc => hle (Nat.le_of_succ_le_succ hc))]

theorem strip_comment1_hash (s : String) :
    strip_comment1 s "#" = truncAt '#' s := by
  unfold strip_comment1 truncAt
  congr 1
  have hf : (fun ch => !("#".data.contains ch)) = (fun x : Char => x != '#') := by
    funext ch
    cases hb : ch == '#' <;> simp [List.contains, List.elem, hb, bne]
  rw [hf]

theorem strip_comment1_semi (s : String) :
    strip_comment1 s ";" = truncAt ';' s := by
  unfold strip_comment1 truncAt
  congr 1
  have hf : (fun ch => !(";".data.contains ch)) = (fun x : Char => x != ';') := by
    funext ch
    cases hb : ch == ';' <;> simp [List.contains, List.elem, hb, bne]
  rw [hf]

/-- C8: the default comment stripping is the `#`-truncation pass followed by
the `;`-truncation pass on its result, which coincides with truncating at
whichever single marker leaves the shorter result; on `abc ; def # ghi` it
yields `abc ` (with the trailing space). -/
theorem C8_two_pass_strip :
    (∀ s, strip_comment s = truncAt ';' (truncAt '#' s))
    ∧ (∀ s, strip_comment s =
        if (truncAt '#' s).length ≤ (truncAt ';' s).length
        then truncAt '#' s else truncAt ';' s)
    ∧ strip_comment "abc ; def # ghi" = "abc " := by
  have h1 : ∀ s, strip_comment s = truncAt ';' (truncAt '#' s) := by
    intro s
    unfold strip_comment
    rw [strip_comment1_hash, strip_comment1_semi]
  refine ⟨h1, ?_, by decide⟩
  intro s
  rw [h1 s]
  have h2 : truncAt ';' (truncAt '#' s)
      = ⟨(s.data.takeWhile (fun x => x != '#')).takeWhile (fun x => x != ';')⟩ := rfl
  rw [h2, takeWhile_hash_semi, apply_ite (fun l : List Char => (⟨l⟩ : String))]
  rfl

end Inipp

namespace Inipp

theorem strip_trim_header_comment (note : String) :
    strip_comment (trim ("[a] ; " ++ note)) = "[a] " := by
  have hdata : ("[a] ; " ++ note).data
      = '[' :: 'a' :: ']' :: ' ' :: ';' :: ' ' :: note.data := by
    rw [String.data_append]
    rfl
  have hls : (lstrip ("[a] ; " ++ note) whitespaceDefault).data
      = ['[', 'a', ']', ' ', ';'] ++ (' ' :: note.data) := by
    show (("[a] ; " ++ note).data.dropWhile (fun ch => whitespaceDefault.data.contains ch))
        = ['[', 'a', ']', ' ', ';'] ++ (' ' :: note.data)
    rw [hdata, List.dropWhile_cons, if_neg (by decide)]
    rfl
  have hrev : (('[' :: 'a' :: ']' :: ' ' :: ';' :: (' ' :: note.data) : List Char)).reverse
      = (note.data.reverse ++ [' ']) ++ [';', ' ', ']', 'a', '['] := by
    show ((['[', 'a', ']', ' ', ';'] ++ (' ' :: note.data) : List Char)).reverse = _
    rw [List.reverse_append, List.reverse_cons]
    rfl
  have htrim : (trim ("[a] ; " ++ note)).data
      = if (List.dropWhile (fun ch => whitespaceDefault.data.contains ch)
            (note.data.reverse ++ [' '])).isEmpty
        then ['[', 'a', ']', ' ', ';']
        else ['[', 'a', ']', ' ', ';'] ++
          (List.dropWhile (fun ch => whitespaceDefault.data.contains ch)
            (note.data.reverse ++ [' '])).reverse := by
    show ((lstrip ("[a] ; " ++ note) whitespaceDefault).data.reverse.dropWhile
        (fun ch => whitespaceDefault.data.contains ch)).reverse = _
    rw [hls]
    rw [show (['[', 'a', ']', ' ', ';'] ++ (' ' :: note.data) : List Char)
        = '[' :: 'a' :: ']' :: ' ' :: ';' :: (' ' :: note.data) from rfl]
    rw [hrev, List.dropWhile_append]
    rw [apply_ite List.reverse]
    rw [show (List.dropWhile (fun ch => whitespaceDefault.data.contains ch)
        ([';', ' ', ']', 'a', '['] : List Char)) = [';', ' ', ']', 'a', '['] from by decide]
    rw [List.reverse_append]
    rfl
  by_cases hem : (List.dropWhile (fun ch => whitespaceDefault.data.contains ch)
      (note.data.reverse ++ [' '])).isEmpty
  · have h5 : (trim ("[a] ; " ++ note)).data = ['[', 'a', ']', ' ', ';'] := by
      rw [htrim, if_pos hem]
    have heq : trim ("[a] ; " ++ note) = "[a] ;" := by
      apply String.ext
      rw [h5]
    rw [heq]
    decide
  · have h5 : (trim ("[a] ; " ++ note)).data = ['[', 'a', ']', ' ', ';'] ++
        (List.dropWhile (fun ch => whitespaceDefault.data.contains ch)
          (note.data.reverse ++ [' '])).reverse := by
      rw [htrim, if_neg hem]
    show strip_comment1 (strip_comment1 (trim ("[a] ; " ++ note)) "#") ";" = "[a] "
    have hq : (strip_comment1 (trim ("[a] ; " ++ note)) "#").data
        = ['[', 'a', ']', ' ', ';'] ++
          ((List.dropWhile (fun ch => whitespaceDefault.data.contains ch)
            (note.data.reverse ++ [' '])).reverse.takeWhile
              (fun ch => !("#".data.contains ch))) := by
      show ((trim ("[a] ; " ++ note)).data.takeWhile (fun ch => !("#".data.contains ch))) = _
      rw [h5, List.takeWhile_append]
      rw [if_pos (by decide)]
    have hr : (strip_comment1 (strip_comment1 (trim ("[a] ; " ++ note)) "#") ";").data
        = ['[', 'a', ']', ' '] := by
      show ((strip_comment1 (trim ("[a] ; " ++ note)) "#").data.takeWhile
          (fun ch => !(";".data.contains ch))) = _
      rw [hq, List.takeWhile_append]
      rw [if_neg (by decide)]
      decide
    apply String.ext
    rw [hr]

/-- C9: a header line with whitespace and an end-of-line comment after the
closing bracket is trimmed before the comment is stripped and never
re-trimmed, so it keeps its trailing whitespace, fails the closing-bracket
check, and aborts the whole parse with a syntax error — for any comment
text after `[a] ; ` — although the same header without the comment parses
successfully. -/
theorem C9_header_trailing_comment :
    strip_comment (trim "[a] ; note") = "[a] "
    ∧ classify "[a] ; note" = .badHeader "[a] "
    ∧ parse ["[a] ; note"] = .error (.missingBracket "[a] ")
    ∧ (∀ note : String, parse ["[a] ; " ++ note] = .error (.missingBracket "[a] "))
    ∧ (parse ["[a]"]).isOk = true := by
  refine ⟨by decide, by decide, rfl, ?_, by decide⟩
  intro note
  have hstrip := strip_trim_header_comment note
  have hcls : classify ("[a] ; " ++ note) = .badHeader "[a] " := by
    simp only [classify, hstrip]
    rfl
  simp only [parse, parseLines, processLine, hcls]

end Inipp
